import Mathlib

/-!
Verification of the smoothing-extraction stage of
`src/scripts/export_plotnine_fits.py`.

The script fits a smooth curve per data subset with plotnine's `geom_smooth`
under `scale_x_log10`, extracts the drawn line vertices from matplotlib,
converts the log-scale x values back with `10**x`, filters fitted values to
the closed range `[Y_MIN, Y_MAX]`, accumulates per-subset prediction frames,
and finally deduplicates, sorts and writes the merged table.

Float values are modelled as rationals (floats are dyadic rationals).  The
original-scale x values produced by `10**x_data` are represented exactly by
their base-10 exponent (`PosX`), with `PosX.toReal` giving the denoted real
number; `PosX_toReal_lt_iff` and `PosX_toReal_inj` certify that comparing or
deduplicating by exponent agrees with comparing the denoted positive reals.

The plotnine/matplotlib draw step is external library code; it is modelled
by an abstract smoothing oracle (`Smoother`) plus the spec's domain policy
(`drawFigure`).  Everything else is translated directly from the script.
-/

namespace PlotnineFits

/-- A positive real of the form `10 ^ e`, represented exactly by its base-10
exponent.  `extract_smooth_data` computes `x_original = 10**x_data` from
matplotlib's log-scale vertex data; every such value is `10 ^ e` for a
rational (float) `e`, so the embedding stores the exponent. -/
structure PosX where
  log10 : ℚ
deriving DecidableEq

/-- The positive real denoted by a `PosX`. -/
noncomputable def PosX.toReal (p : PosX) : ℝ := (10 : ℝ) ^ (p.log10 : ℝ)

/-- The conversion `x_original = 10**x_data` applied to one log-scale value
(line 152 of the script). -/
def pow10 (e : ℚ) : PosX := ⟨e⟩

/-- One row of the input table `combined_df.csv`, restricted to the columns
the script reads: the three grouping columns and the x/y columns used in
`aes(x='train_label_size', y='value')`. -/
structure InputRow where
  plot_group : String
  variable_ : String
  color_var : String
  train_label_size : ℚ
  value : ℚ
deriving DecidableEq

/-- One exported prediction row, with fields in the column order of the
`pd.DataFrame` built in `extract_smooth_data` (lines 154-160). -/
structure ResultRow where
  train_label_size : PosX
  predicted : ℚ
  color_var : String
  variable_ : String
  plot_group : String
deriving DecidableEq

/-- Configured lower y limit (`Y_MIN = 0.4`, line 95), written as the
reduced fraction 4/10 so that the kernel can evaluate comparisons;
`Y_MIN_eq` certifies the value. -/
def Y_MIN : ℚ := mkRat 4 10

/-- Configured upper y limit (`Y_MAX = 1.0`, line 96). -/
def Y_MAX : ℚ := 1

/-- One drawn line of the rendered figure: its vertex list, with x stored on
the log10 working scale, as matplotlib stores it under `scale_x_log10`
(lines 142-143 read `get_xdata`/`get_ydata` of equal length; we keep the
vertices zipped). -/
abbrev Line := List (ℚ × ℚ)

/-- The smoothing oracle: what lines plotnine's `geom_smooth` puts into the
drawn figure for a given list of (x, y) observations.  External capability
(plotnine + statsmodels), abstracted as a function parameter. -/
abbrev Smoother := List (ℚ × ℚ) → List Line

/-- Errors raised inside the `try` block of `extract_smooth_data`. -/
inductive DrawError where
  | invalidDomain
deriving DecidableEq

/-- Modelled from the spec: the draw step (plotnine `geom_smooth` +
`scale_x_log10` + matplotlib rendering, lines 128-134) is external library
code not present in the repository.  Per spec §4.1, a non-positive x in the
subset makes the log-scale draw fail (`InvalidDomainError`); otherwise the
drawn figure's lines are the smoothing oracle's output (a fit that does not
converge contributes no points, per spec §4.2). -/
def drawFigure (sm : Smoother) (pts : List (ℚ × ℚ)) : Except DrawError (List Line) :=
  if pts.any (fun p => decide (p.1 ≤ 0)) then Except.error DrawError.invalidDomain
  else Except.ok (sm pts)

/-- Result of `extract_smooth_data` for one subset: `ok rows` models
returning a prediction DataFrame, `skipped` models `return None` taken
without printing an error (short subset, or no line with an in-range point),
and `failed e` models the `except` branch (error printed with the subset's
identity, then `return None`). -/
inductive ExtractResult where
  | skipped
  | failed (e : DrawError)
  | ok (rows : List ResultRow)
deriving DecidableEq

/-- The rows a prediction DataFrame contributes, `none` when the script
returned `None`. -/
def okRows : ExtractResult → Option (List ResultRow)
  | ExtractResult.ok rows => some rows
  | _ => none

/-- The y-range mask of line 147: keep the vertices whose y value lies in
the closed range `[Y_MIN, Y_MAX]`. -/
def validPoints (line : Line) : Line :=
  line.filter (fun p => decide (Y_MIN ≤ p.2 ∧ p.2 ≤ Y_MAX))

/-- The DataFrame built from one line's masked vertices (lines 152-160):
x converted back from log scale with `10**`, y kept, tagged with the
subset's identity. -/
def lineRows (color_var variable_ plot_group : String) (line : Line) : List ResultRow :=
  (validPoints line).map (fun p =>
    { train_label_size := pow10 p.1
      predicted := p.2
      color_var := color_var
      variable_ := variable_
      plot_group := plot_group })

/-- The `for line in lines` loop of lines 141-167: the first line that is
nonempty and has at least one vertex inside the y range is returned as a
DataFrame; if no line qualifies the function falls through to `return None`. -/
def firstLineRows (color_var variable_ plot_group : String) : List Line → ExtractResult
  | [] => ExtractResult.skipped
  | line :: rest =>
    if line.isEmpty then firstLineRows color_var variable_ plot_group rest
    else if (validPoints line).isEmpty then firstLineRows color_var variable_ plot_group rest
    else ExtractResult.ok (lineRows color_var variable_ plot_group line)

/-- The (x, y) observation pairs the plot is built from
(`aes(x='train_label_size', y='value')`). -/
def xy (subset_data : List InputRow) : List (ℚ × ℚ) :=
  subset_data.map (fun r => (r.train_label_size, r.value))

/-- Function `extract_smooth_data` (lines 102-171): subsets with fewer than 3 rows
return `None` before anything is drawn; otherwise the plot is drawn inside
`try` (any exception is caught, printed and turned into `None`), and the
line loop extracts the first usable line's data. -/
def extract_smooth_data (sm : Smoother) (subset_data : List InputRow)
    (color_var variable_ plot_group : String) : ExtractResult :=
  if subset_data.length < 3 then ExtractResult.skipped
  else
    match drawFigure sm (xy subset_data) with
    | Except.error e => ExtractResult.failed e
    | Except.ok lines => firstLineRows color_var variable_ plot_group lines

/-- First-occurrence deduplication, processed left to right with the set of
already-seen elements: the semantics of `pandas.Series.unique` and of
`DataFrame.drop_duplicates` (default `keep='first'`). -/
def dedupFirstAux {α : Type _} [DecidableEq α] (seen : List α) : List α → List α
  | [] => []
  | a :: l => if a ∈ seen then dedupFirstAux seen l else a :: dedupFirstAux (a :: seen) l

/-- Semantics of `drop_duplicates` and `.unique()`: keep the first occurrence of each
element, in arrival order. -/
def dedupFirst {α : Type _} [DecidableEq α] (l : List α) : List α :=
  dedupFirstAux [] l

/-- The (plot_group, variable, color_var) combinations enumerated by the
nested loops of `main` (lines 193-205): for each first-seen plot_group, the
Cartesian product of that group's first-seen variables and color_vars. -/
def comboList (df : List InputRow) : List (String × String × String) :=
  (dedupFirst (df.map (fun r => r.plot_group))).flatMap (fun pg =>
    let group_data := df.filter (fun r => decide (r.plot_group = pg))
    (dedupFirst (group_data.map (fun r => r.variable_))).flatMap (fun v =>
      (dedupFirst (group_data.map (fun r => r.color_var))).map (fun cv => (pg, v, cv))))

/-- The subset DataFrame for one combination (lines 194 and 202-205): the
group's rows further filtered to one variable and one color_var. -/
def subsetFor (df : List InputRow) (c : String × String × String) : List InputRow :=
  (df.filter (fun r => decide (r.plot_group = c.1))).filter
    (fun r => decide (r.variable_ = c.2.1) && decide (r.color_var = c.2.2))

/-- The mutable state of `main`'s extraction loop: `total_combinations`,
`successful`, and the list `all_predictions` of appended DataFrames. -/
structure RunStats where
  total_combinations : ℕ
  successful : ℕ
  all_predictions : List (List ResultRow)
deriving DecidableEq

/-- Function `extract_smooth_data` applied to one combination exactly as `main` calls
it: `extract_smooth_data(subset_data, color, var, group)` (line 207). -/
def extractCombo (sm : Smoother) (df : List InputRow)
    (c : String × String × String) : ExtractResult :=
  extract_smooth_data sm (subsetFor df c) c.2.2 c.2.1 c.1

/-- One iteration of `main`'s inner loop body (lines 200-212):
`total_combinations += 1`; on a non-`None` result append it and
`successful += 1`. -/
def stepCombo (sm : Smoother) (df : List InputRow) (st : RunStats)
    (c : String × String × String) : RunStats :=
  match okRows (extractCombo sm df c) with
  | some rows =>
    ⟨st.total_combinations + 1, st.successful + 1, st.all_predictions ++ [rows]⟩
  | none => ⟨st.total_combinations + 1, st.successful, st.all_predictions⟩

/-- The whole extraction loop of `main` (lines 187-212), started from
`total_combinations = 0`, `successful = 0`, `all_predictions = []`. -/
def runExtraction (sm : Smoother) (df : List InputRow) : RunStats :=
  (comboList df).foldl (stepCombo sm df) ⟨0, 0, []⟩

/-- The sort key of line 222-224: the column tuple
`['plot_group', 'variable', 'color_var', 'train_label_size']`, ordered
lexicographically (string order on the three labels, numeric order on x,
which by `PosX_toReal_lt_iff` agrees with ordering the denoted reals). -/
def rowKey (r : ResultRow) : String ×ₗ (String ×ₗ (String ×ₗ ℚ)) :=
  toLex (r.plot_group, toLex (r.variable_, toLex (r.color_var, r.train_label_size.log10)))

/-- Boolean comparison used for the stable sort. -/
def rowLe (a b : ResultRow) : Bool := decide (rowKey a ≤ rowKey b)

/-- Lines 219-224 of `main`: concatenate, `drop_duplicates()` (full-row
equality, first kept), then `sort_values` on the four key columns — a
stable lexicographic sort (pandas uses a stable lexsort for multi-column
keys). -/
def normalize (rows : List ResultRow) : List ResultRow :=
  (dedupFirst rows).mergeSort rowLe

/-- Observable outcome of `main` (lines 218-244): either the normalized
table is written to the output CSV, or nothing is written and the script
reports that no predictions were extracted. -/
inductive RunOutcome where
  | exported (table : List ResultRow)
  | emptyResult
deriving DecidableEq

/-- Step 3 of `main`, after the extraction loop: if `all_predictions` is nonempty the
merged table is normalized and written and `main` returns exit code 0;
otherwise nothing is written and `main` returns exit code 1. -/
def mainRun (sm : Smoother) (df : List InputRow) : RunOutcome × ℕ :=
  let st := runExtraction sm df
  if st.all_predictions.isEmpty then (RunOutcome.emptyResult, 1)
  else (RunOutcome.exported (normalize st.all_predictions.flatten), 0)

/-- The Scale Transformer's forward map: base-10 logarithm
(`scale_x_log10`, line 130). -/
noncomputable def forward (x : ℝ) : ℝ := Real.logb 10 x

/-- The Scale Transformer's inverse map: `10**x` (line 152). -/
noncomputable def inverse (x : ℝ) : ℝ := (10 : ℝ) ^ x

/-! Semantics of the exponent representation: ordering, equality and
positivity of `PosX` agree with the denoted positive reals, and `pow10`
denotes exactly the Scale Transformer's inverse. -/

theorem Y_MIN_eq : Y_MIN = 0.4 := by
  norm_num [Y_MIN]

theorem PosX_toReal_lt_iff (a b : PosX) : a.toReal < b.toReal ↔ a.log10 < b.log10 := by
  unfold PosX.toReal
  rw [Real.rpow_lt_rpow_left_iff (by norm_num : (1:ℝ) < 10)]
  exact Rat.cast_lt

theorem PosX_toReal_inj (a b : PosX) : a.toReal = b.toReal ↔ a = b := by
  constructor
  · intro h
    have : a.log10 = b.log10 := by
      by_contra hne
      rcases lt_or_gt_of_ne hne with hlt | hgt
      · exact absurd h (ne_of_lt ((PosX_toReal_lt_iff a b).mpr hlt))
      · exact absurd h.symm (ne_of_lt ((PosX_toReal_lt_iff b a).mpr hgt))
    cases a; cases b; simpa using this
  · intro h; rw [h]

theorem PosX_toReal_pos (a : PosX) : 0 < a.toReal :=
  Real.rpow_pos_of_pos (by norm_num) _

theorem pow10_toReal (e : ℚ) : (pow10 e).toReal = inverse (e : ℝ) := rfl

/-! Properties of first-occurrence deduplication
(`drop_duplicates` / `.unique()`). -/

theorem mem_dedupFirstAux {α : Type _} [DecidableEq α] (seen l : List α) (x : α) :
    x ∈ dedupFirstAux seen l ↔ x ∈ l ∧ x ∉ seen := by
  induction l generalizing seen with
  | nil => simp [dedupFirstAux]
  | cons a t ih =>
    by_cases ha : a ∈ seen
    · rw [dedupFirstAux, if_pos ha, ih, List.mem_cons]
      constructor
      · rintro ⟨hx, hs⟩; exact ⟨Or.inr hx, hs⟩
      · rintro ⟨hx | hx, hs⟩
        · subst hx; exact absurd ha hs
        · exact ⟨hx, hs⟩
    · rw [dedupFirstAux, if_neg ha, List.mem_cons, List.mem_cons, ih, List.mem_cons]
      constructor
      · rintro (hx | ⟨hx, hs⟩)
        · subst hx; exact ⟨Or.inl rfl, ha⟩
        · refine ⟨Or.inr hx, fun h => hs (Or.inr h)⟩
      · rintro ⟨hx | hx, hs⟩
        · exact Or.inl hx
        · by_cases hxa : x = a
          · exact Or.inl hxa
          · exact Or.inr ⟨hx, fun h => h.elim hxa hs⟩


theorem mem_dedupFirst {α : Type _} [DecidableEq α] (l : List α) (x : α) :
    x ∈ dedupFirst l ↔ x ∈ l := by
  rw [dedupFirst, mem_dedupFirstAux]
  simp

theorem nodup_dedupFirstAux {α : Type _} [DecidableEq α] (seen l : List α) :
    (dedupFirstAux seen l).Nodup := by
  induction l generalizing seen with
  | nil => exact List.nodup_nil
  | cons a t ih =>
    by_cases ha : a ∈ seen
    · rw [dedupFirstAux, if_pos ha]; exact ih seen
    · rw [dedupFirstAux, if_neg ha]
      refine List.nodup_cons.mpr ⟨fun h => ?_, ih (a :: seen)⟩
      exact ((mem_dedupFirstAux (a :: seen) t a).mp h).2 (List.mem_cons_self a seen)

theorem nodup_dedupFirst {α : Type _} [DecidableEq α] (l : List α) :
    (dedupFirst l).Nodup :=
  nodup_dedupFirstAux [] l

theorem dedupFirstAux_congr {α : Type _} [DecidableEq α] {s₁ s₂ : List α}
    (h : ∀ x, x ∈ s₁ ↔ x ∈ s₂) (l : List α) :
    dedupFirstAux s₁ l = dedupFirstAux s₂ l := by
  induction l generalizing s₁ s₂ with
  | nil => rfl
  | cons a t ih =>
    by_cases ha : a ∈ s₁
    · rw [dedupFirstAux, if_pos ha, dedupFirstAux, if_pos ((h a).mp ha)]
      exact ih h
    · rw [dedupFirstAux, if_neg ha, dedupFirstAux, if_neg (fun hx => ha ((h a).mpr hx))]
      refine congrArg (a :: ·) (ih ?_)
      intro x
      simp only [List.mem_cons]
      exact or_congr Iff.rfl (h x)

theorem dedupFirstAux_seen_irrel {α : Type _} [DecidableEq α] {x : α} {l : List α}
    (hx : x ∉ l) (seen : List α) :
    dedupFirstAux (x :: seen) l = dedupFirstAux seen l := by
  induction l generalizing seen with
  | nil => rfl
  | cons a t ih =>
    have hax : a ≠ x := fun h => hx (h ▸ List.mem_cons_self a t)
    have hxt : x ∉ t := fun h => hx (List.mem_cons_of_mem a h)
    by_cases ha : a ∈ seen
    · rw [dedupFirstAux, if_pos (List.mem_cons_of_mem x ha), dedupFirstAux, if_pos ha]
      exact ih hxt seen
    · have ha' : a ∉ x :: seen := by
        intro h
        rcases List.mem_cons.mp h with h1 | h1
        · exact hax h1
        · exact ha h1
      rw [dedupFirstAux, if_neg ha', dedupFirstAux, if_neg ha]
      refine congrArg (a :: ·) ?_
      calc dedupFirstAux (a :: x :: seen) t
          = dedupFirstAux (x :: a :: seen) t := by
            refine dedupFirstAux_congr (fun y => ?_) t
            simp only [List.mem_cons]
            tauto
        _ = dedupFirstAux (a :: seen) t := ih hxt (a :: seen)

theorem filter_dedupFirstAux {α : Type _} [DecidableEq α] (p : α → Bool)
    (seen l : List α) :
    (dedupFirstAux seen l).filter p = dedupFirstAux seen (l.filter p) := by
  induction l generalizing seen with
  | nil => rfl
  | cons a t ih =>
    by_cases ha : a ∈ seen
    · rw [dedupFirstAux, if_pos ha]
      by_cases hp : p a
      · rw [List.filter_cons_of_pos hp, dedupFirstAux, if_pos ha]
        exact ih seen
      · rw [List.filter_cons_of_neg (by simpa using hp)]
        exact ih seen
    · rw [dedupFirstAux, if_neg ha]
      by_cases hp : p a
      · rw [List.filter_cons_of_pos hp, List.filter_cons_of_pos hp,
          dedupFirstAux, if_neg ha]
        exact congrArg (a :: ·) (ih (a :: seen))
      · rw [List.filter_cons_of_neg (by simpa using hp),
          List.filter_cons_of_neg (by simpa using hp)]
        have hnot : a ∉ t.filter p := by
          intro h
          exact hp (List.of_mem_filter h)
        rw [ih (a :: seen), dedupFirstAux_seen_irrel hnot seen]

theorem filter_dedupFirst {α : Type _} [DecidableEq α] (p : α → Bool) (l : List α) :
    (dedupFirst l).filter p = dedupFirst (l.filter p) :=
  filter_dedupFirstAux p [] l

theorem dedupFirstAux_eq_self {α : Type _} [DecidableEq α] {l : List α}
    (hl : l.Nodup) {seen : List α} (hs : ∀ a ∈ l, a ∉ seen) :
    dedupFirstAux seen l = l := by
  induction l generalizing seen with
  | nil => rfl
  | cons a t ih =>
    rcases List.nodup_cons.mp hl with ⟨hat, ht⟩
    rw [dedupFirstAux, if_neg (hs a (List.mem_cons_self a t))]
    refine congrArg (a :: ·) (ih ht ?_)
    intro b hb hmem
    rcases List.mem_cons.mp hmem with h1 | h1
    · exact hat (h1 ▸ hb)
    · exact hs b (List.mem_cons_of_mem a hb) h1

theorem dedupFirst_eq_self {α : Type _} [DecidableEq α] {l : List α} (hl : l.Nodup) :
    dedupFirst l = l :=
  dedupFirstAux_eq_self hl (by intro a _ h; exact absurd h (List.not_mem_nil a))


/-! Order facts for the sort comparison. -/

theorem rowLe_trans (a b c : ResultRow) (hab : rowLe a b = true)
    (hbc : rowLe b c = true) : rowLe a c = true := by
  simp only [rowLe, decide_eq_true_eq] at hab hbc
  simpa [rowLe] using le_trans hab hbc

theorem rowLe_total (a b : ResultRow) : (rowLe a b || rowLe b a) = true := by
  simp only [rowLe, Bool.or_eq_true, decide_eq_true_eq]
  exact le_total _ _

theorem rowLe_of_key_eq {a b : ResultRow} (h : rowKey a = rowKey b) :
    rowLe a b = true := by
  simp only [rowLe, decide_eq_true_eq, h, le_refl]

/-! Properties of the Result Normalizer. -/

theorem normalize_perm_dedupFirst (rows : List ResultRow) :
    (normalize rows).Perm (dedupFirst rows) :=
  List.mergeSort_perm (dedupFirst rows) rowLe

theorem mem_normalize (rows : List ResultRow) (r : ResultRow) :
    r ∈ normalize rows ↔ r ∈ rows := by
  rw [(normalize_perm_dedupFirst rows).mem_iff, mem_dedupFirst]

theorem nodup_normalize (rows : List ResultRow) : (normalize rows).Nodup :=
  ((normalize_perm_dedupFirst rows).nodup_iff).mpr (nodup_dedupFirst rows)

theorem sorted_normalize (rows : List ResultRow) :
    List.Pairwise (fun a b => rowLe a b = true) (normalize rows) :=
  List.sorted_mergeSort rowLe_trans rowLe_total (dedupFirst rows)

/-- Stability of the normalizer on one sort-key class: the rows of the
normalized table carrying a given key are exactly the deduplicated input
rows carrying that key, in arrival order. -/
theorem normalize_filter_key (rows : List ResultRow)
    (k : String ×ₗ (String ×ₗ (String ×ₗ ℚ))) :
    (normalize rows).filter (fun r => decide (rowKey r = k))
      = (dedupFirst rows).filter (fun r => decide (rowKey r = k)) := by
  set p : ResultRow → Bool := fun r => decide (rowKey r = k) with hp
  have hkey : ∀ r, p r = true → rowKey r = k := by
    intro r hr
    simpa [hp] using hr
  have hpair : List.Pairwise (fun a b => rowLe a b = true)
      ((dedupFirst rows).filter p) := by
    refine List.pairwise_of_forall_mem_list ?_
    intro a ha b hb
    have hka := hkey a (List.of_mem_filter ha)
    have hkb := hkey b (List.of_mem_filter hb)
    exact rowLe_of_key_eq (hka.trans hkb.symm)
  have hsub : ((dedupFirst rows).filter p).Sublist (normalize rows) :=
    List.sublist_mergeSort rowLe_trans rowLe_total hpair
      (List.filter_sublist (dedupFirst rows))
  have hsub2 : ((dedupFirst rows).filter p).Sublist ((normalize rows).filter p) := by
    have := hsub.filter p
    rwa [List.filter_filter, show (fun a => p a && p a) = p from by
      funext a; cases p a <;> rfl] at this
  have hperm : ((normalize rows).filter p).Perm ((dedupFirst rows).filter p) :=
    (normalize_perm_dedupFirst rows).filter p
  exact (hsub2.eq_of_length hperm.length_eq.symm).symm

/-! Properties of the per-subset extraction. -/

theorem validPoints_nil : validPoints [] = [] := rfl

theorem mem_validPoints {line : Line} {p : ℚ × ℚ} (h : p ∈ validPoints line) :
    Y_MIN ≤ p.2 ∧ p.2 ≤ Y_MAX := by
  have := List.of_mem_filter h
  simpa using this

theorem mem_lineRows_bounds {cv v pg : String} {line : Line} {r : ResultRow}
    (h : r ∈ lineRows cv v pg line) :
    Y_MIN ≤ r.predicted ∧ r.predicted ≤ Y_MAX := by
  rcases List.mem_map.mp h with ⟨p, hp, hr⟩
  have := mem_validPoints hp
  rw [← hr]
  exact this

theorem lineRows_ne_nil {cv v pg : String} {line : Line}
    (h : validPoints line ≠ []) : lineRows cv v pg line ≠ [] := by
  intro hcon
  exact h (List.map_eq_nil_iff.mp hcon)

theorem firstLineRows_ne_failed (cv v pg : String) (lines : List Line)
    (e : DrawError) : firstLineRows cv v pg lines ≠ ExtractResult.failed e := by
  induction lines with
  | nil => simp [firstLineRows]
  | cons line rest ih =>
    rw [firstLineRows]
    by_cases h1 : line.isEmpty
    · rw [if_pos h1]; exact ih
    · rw [if_neg h1]
      by_cases h2 : (validPoints line).isEmpty
      · rw [if_pos h2]; exact ih
      · rw [if_neg h2]; simp

theorem firstLineRows_eq_ok {cv v pg : String} {lines : List Line}
    {rows : List ResultRow}
    (h : firstLineRows cv v pg lines = ExtractResult.ok rows) :
    ∃ line ∈ lines, rows = lineRows cv v pg line ∧ validPoints line ≠ [] := by
  induction lines with
  | nil => simp [firstLineRows] at h
  | cons line rest ih =>
    rw [firstLineRows] at h
    by_cases h1 : line.isEmpty
    · rw [if_pos h1] at h
      rcases ih h with ⟨l, hl, hrows⟩
      exact ⟨l, List.mem_cons_of_mem line hl, hrows⟩
    · rw [if_neg h1] at h
      by_cases h2 : (validPoints line).isEmpty
      · rw [if_pos h2] at h
        rcases ih h with ⟨l, hl, hrows⟩
        exact ⟨l, List.mem_cons_of_mem line hl, hrows⟩
      · rw [if_neg h2] at h
        refine ⟨line, List.mem_cons_self line rest, ?_, ?_⟩
        · cases h; rfl
        · simpa [List.isEmpty_iff] using h2

theorem firstLineRows_skipped_of_all_invalid {cv v pg : String} {lines : List Line}
    (h : ∀ l ∈ lines, validPoints l = []) :
    firstLineRows cv v pg lines = ExtractResult.skipped := by
  induction lines with
  | nil => rfl
  | cons line rest ih =>
    rw [firstLineRows]
    by_cases h1 : line.isEmpty
    · rw [if_pos h1]
      exact ih (fun l hl => h l (List.mem_cons_of_mem line hl))
    · rw [if_neg h1, if_pos (by
        simp only [List.isEmpty_iff]
        exact h line (List.mem_cons_self line rest))]
      exact ih (fun l hl => h l (List.mem_cons_of_mem line hl))

/-- The loop of lines 141-167 returns the data of the first line with at
least one in-range vertex (an empty line has none), and `None` otherwise. -/
theorem firstLineRows_eq_find (cv v pg : String) (lines : List Line) :
    firstLineRows cv v pg lines =
      match lines.find? (fun l => !(validPoints l).isEmpty) with
      | some line => ExtractResult.ok (lineRows cv v pg line)
      | none => ExtractResult.skipped := by
  induction lines with
  | nil => rfl
  | cons line rest ih =>
    rw [firstLineRows]
    by_cases h1 : line.isEmpty
    · have hempty : line = [] := List.isEmpty_iff.mp h1
      have hv : validPoints line = [] := by rw [hempty]; rfl
      rw [if_pos h1, List.find?_cons_of_neg _ (by simp [hv]), ih]
    · rw [if_neg h1]
      by_cases h2 : (validPoints line).isEmpty
      · rw [if_pos h2, List.find?_cons_of_neg _ (by simp [h2]), ih]
      · rw [if_neg h2, List.find?_cons_of_pos _ (by simpa using h2)]

theorem drawFigure_ok {sm : Smoother} {pts : List (ℚ × ℚ)}
    (h : ∀ p ∈ pts, 0 < p.1) : drawFigure sm pts = Except.ok (sm pts) := by
  rw [drawFigure, if_neg]
  simp only [List.any_eq_true, decide_eq_true_eq, not_exists, not_and]
  intro p hp
  simp only [not_le]
  exact h p hp

theorem drawFigure_error {sm : Smoother} {pts : List (ℚ × ℚ)}
    (h : ∃ p ∈ pts, p.1 ≤ 0) :
    drawFigure sm pts = Except.error DrawError.invalidDomain := by
  rw [drawFigure, if_pos]
  simp only [List.any_eq_true, decide_eq_true_eq]
  exact h

theorem extract_eq_firstLineRows {sm : Smoother} {subset : List InputRow}
    {cv v pg : String} (h3 : 3 ≤ subset.length)
    (hpos : ∀ p ∈ xy subset, 0 < p.1) :
    extract_smooth_data sm subset cv v pg
      = firstLineRows cv v pg (sm (xy subset)) := by
  rw [extract_smooth_data, if_neg (by omega), drawFigure_ok hpos]

theorem extract_eq_ok {sm : Smoother} {subset : List InputRow}
    {cv v pg : String} {rows : List ResultRow}
    (h : extract_smooth_data sm subset cv v pg = ExtractResult.ok rows) :
    ∃ line ∈ sm (xy subset), rows = lineRows cv v pg line ∧ validPoints line ≠ [] := by
  rw [extract_smooth_data] at h
  by_cases hlen : subset.length < 3
  · rw [if_pos hlen] at h; cases h
  · rw [if_neg hlen] at h
    rcases hdraw : drawFigure sm (xy subset) with e | lines
    · rw [hdraw] at h; cases h
    · rw [hdraw] at h
      have hlines : lines = sm (xy subset) := by
        rw [drawFigure] at hdraw
        by_cases hany : (xy subset).any (fun p => decide (p.1 ≤ 0))
        · rw [if_pos hany] at hdraw; cases hdraw
        · rw [if_neg hany] at hdraw; cases hdraw; rfl
      rw [hlines] at h
      exact firstLineRows_eq_ok h

/-! Closed form of the extraction loop of `main`. -/

theorem foldl_stepCombo (sm : Smoother) (df : List InputRow)
    (cs : List (String × String × String)) (st : RunStats) :
    cs.foldl (stepCombo sm df) st =
      ⟨st.total_combinations + cs.length,
       st.successful + cs.countP (fun c => (okRows (extractCombo sm df c)).isSome),
       st.all_predictions ++ cs.filterMap (fun c => okRows (extractCombo sm df c))⟩ := by
  induction cs generalizing st with
  | nil => simp
  | cons c rest ih =>
    rw [List.foldl_cons, ih]
    rcases hc : okRows (extractCombo sm df c) with _ | rows
    · simp only [stepCombo, hc, List.countP_cons, List.filterMap_cons,
        List.length_cons, Option.isSome_none, RunStats.mk.injEq]
      refine ⟨by omega, by simp, by simp⟩
    · simp only [stepCombo, hc, List.countP_cons, List.filterMap_cons,
        List.length_cons, Option.isSome_some, RunStats.mk.injEq]
      refine ⟨by omega, by simp; omega, by simp⟩

theorem runExtraction_spec (sm : Smoother) (df : List InputRow) :
    runExtraction sm df =
      ⟨(comboList df).length,
       (comboList df).countP (fun c => (okRows (extractCombo sm df c)).isSome),
       (comboList df).filterMap (fun c => okRows (extractCombo sm df c))⟩ := by
  rw [runExtraction, foldl_stepCombo]
  simp

theorem mem_all_predictions {sm : Smoother} {df : List InputRow}
    {block : List ResultRow}
    (h : block ∈ (runExtraction sm df).all_predictions) :
    ∃ c ∈ comboList df, extractCombo sm df c = ExtractResult.ok block := by
  rw [runExtraction_spec] at h
  rcases List.mem_filterMap.mp h with ⟨c, hc, hok⟩
  refine ⟨c, hc, ?_⟩
  rcases hres : extractCombo sm df c with _ | e | rows <;> rw [hres] at hok
  · cases hok
  · cases hok
  · rw [okRows] at hok
    cases hok
    rfl

theorem all_predictions_ne_nil {sm : Smoother} {df : List InputRow}
    {block : List ResultRow}
    (h : block ∈ (runExtraction sm df).all_predictions) : block ≠ [] := by
  rcases mem_all_predictions h with ⟨c, _, hok⟩
  rcases extract_eq_ok hok with ⟨line, _, hrows, hne⟩
  rw [hrows]
  exact lineRows_ne_nil hne

/-! Concrete fixtures used by the witness theorems. -/

/-- A concrete smoothing oracle drawing one line with a single in-range
vertex (log-scale x = 0, fitted y = 1/2). -/
def wSmoother : Smoother := fun _ => [[(0, mkRat 1 2)]]

/-- A concrete input table: one (plot_group, variable, color_var)
combination with three observations at positive x. -/
def wInput : List InputRow :=
  [⟨"g", "v", "c", 1, 1⟩, ⟨"g", "v", "c", 2, 1⟩, ⟨"g", "v", "c", 3, 1⟩]

/-- The single prediction row `wSmoother` yields on `wInput`. -/
def wRow : ResultRow := ⟨pow10 0, mkRat 1 2, "c", "v", "g"⟩

theorem normalize_single (r : ResultRow) : normalize [r] = [r] := by
  rw [normalize, show dedupFirst [r] = [r] from rfl]
  exact List.mergeSort_of_sorted (List.pairwise_singleton _ r)

/-- C1: every ResultRow of the normalized table produced by a run has its
fitted value inside the closed configured y range `[Y_MIN, Y_MAX]`, and —
as long as every observation has positive x — out-of-range fitted points
never reach the error branch: they are dropped silently by the mask of
line 147, not reported. -/
theorem C1_y_range_invariant :
    (∀ (sm : Smoother) (df : List InputRow) (r : ResultRow),
        r ∈ normalize (runExtraction sm df).all_predictions.flatten →
        Y_MIN ≤ r.predicted ∧ r.predicted ≤ Y_MAX)
  ∧ (∀ (sm : Smoother) (subset : List InputRow) (cv v pg : String),
        (∀ p ∈ xy subset, 0 < p.1) →
        ∀ e, extract_smooth_data sm subset cv v pg ≠ ExtractResult.failed e) := by
  constructor
  · intro sm df r hr
    rw [mem_normalize] at hr
    rcases List.mem_flatten.mp hr with ⟨block, hblock, hrb⟩
    rcases mem_all_predictions hblock with ⟨c, _, hok⟩
    rcases extract_eq_ok hok with ⟨line, _, hrows, _⟩
    rw [hrows] at hrb
    exact mem_lineRows_bounds hrb
  · intro sm subset cv v pg hpos e
    rw [extract_smooth_data]
    by_cases hlen : subset.length < 3
    · rw [if_pos hlen]; simp
    · rw [if_neg hlen, drawFigure_ok hpos]
      exact firstLineRows_ne_failed cv v pg _ e

theorem C1_y_range_invariant_witness :
    (Y_MIN ≤ wRow.predicted ∧ wRow.predicted ≤ Y_MAX)
  ∧ extract_smooth_data wSmoother wInput "c" "v" "g"
      ≠ ExtractResult.failed DrawError.invalidDomain := by
  constructor
  · refine C1_y_range_invariant.1 wSmoother wInput wRow ?_
    have h1 : (runExtraction wSmoother wInput).all_predictions = [[wRow]] := by decide
    rw [h1, show ([[wRow]] : List (List ResultRow)).flatten = [wRow] by simp,
      normalize_single]
    exact List.mem_cons_self wRow []
  · exact C1_y_range_invariant.2 wSmoother wInput "c" "v" "g" (by decide)
      DrawError.invalidDomain

/-- C2: the Result Normalizer deduplicates by full-field equality and then
stable-sorts ascending by the key (plot_group, variable, color_var,
train_label_size): the result has no duplicate rows, keeps exactly the
input's rows, is pairwise ordered by the sort key, and within each sort-key
class keeps exactly the first occurrences of the distinct rows in their
original arrival order (so two rows identical in all five fields collapse,
while key ties differing in predicted are both kept, arrival-ordered). -/
theorem C2_normalizer_dedup_sort (rows : List ResultRow) :
    (normalize rows).Nodup
  ∧ (∀ r, r ∈ normalize rows ↔ r ∈ rows)
  ∧ List.Pairwise (fun a b => rowLe a b = true) (normalize rows)
  ∧ (∀ k, (normalize rows).filter (fun r => decide (rowKey r = k))
        = dedupFirst (rows.filter (fun r => decide (rowKey r = k)))) := by
  refine ⟨nodup_normalize rows, mem_normalize rows, sorted_normalize rows, ?_⟩
  intro k
  rw [normalize_filter_key, filter_dedupFirst]

/-- C3 counterexample: a Subset that contains an observation with x = 0 but
has only two observations is rejected by the minimum-size gate of lines
122-123 before the plot is ever drawn, so it is skipped silently and does
NOT fail with `InvalidDomainError`; the claim as stated is false for it. -/
theorem C3_counterexample :
    extract_smooth_data (fun _ => [])
        [⟨"g", "v", "c", 0, 1⟩, ⟨"g", "v", "c", 10, 1⟩] "c" "v" "g"
      = ExtractResult.skipped
  ∧ extract_smooth_data (fun _ => [])
        [⟨"g", "v", "c", 0, 1⟩, ⟨"g", "v", "c", 10, 1⟩] "c" "v" "g"
      ≠ ExtractResult.failed DrawError.invalidDomain := by
  constructor
  · decide
  · decide

/-- C3 (amended): every Subset with at least 3 observations that contains an
observation with x ≤ 0 fails with `InvalidDomainError` (the whole Subset is
excluded from the output rather than its bad values being dropped), and the
failure is isolated: in any run, every combination whose extraction
succeeds still has its rows in the accumulated predictions. -/
theorem C3_invalid_domain_isolated :
    (∀ (sm : Smoother) (subset : List InputRow) (cv v pg : String),
        3 ≤ subset.length → (∃ r ∈ subset, r.train_label_size ≤ 0) →
        extract_smooth_data sm subset cv v pg
          = ExtractResult.failed DrawError.invalidDomain)
  ∧ (∀ (sm : Smoother) (df : List InputRow) (c : String × String × String)
        (rows : List ResultRow), c ∈ comboList df →
        extractCombo sm df c = ExtractResult.ok rows →
        rows ∈ (runExtraction sm df).all_predictions) := by
  constructor
  · intro sm subset cv v pg h3 hbad
    rcases hbad with ⟨r, hr, hx⟩
    have hmem : (r.train_label_size, r.value) ∈ xy subset :=
      List.mem_map.mpr ⟨r, hr, rfl⟩
    rw [extract_smooth_data, if_neg (by omega),
      drawFigure_error ⟨(r.train_label_size, r.value), hmem, hx⟩]
  · intro sm df c rows hc hok
    rw [runExtraction_spec]
    exact List.mem_filterMap.mpr ⟨c, hc, by rw [hok]; rfl⟩

theorem C3_invalid_domain_isolated_witness :
    extract_smooth_data (fun _ => [])
        [⟨"g", "v", "c", 0, 1⟩, ⟨"g", "v", "c", 2, 1⟩, ⟨"g", "v", "c", 3, 1⟩]
        "c" "v" "g"
      = ExtractResult.failed DrawError.invalidDomain
  ∧ [wRow] ∈ (runExtraction wSmoother wInput).all_predictions := by
  constructor
  · exact C3_invalid_domain_isolated.1 (fun _ => [])
      [⟨"g", "v", "c", 0, 1⟩, ⟨"g", "v", "c", 2, 1⟩, ⟨"g", "v", "c", 3, 1⟩]
      "c" "v" "g" (by decide) ⟨⟨"g", "v", "c", 0, 1⟩, by decide, by decide⟩
  · exact C3_invalid_domain_isolated.2 wSmoother wInput ("g", "v", "c") [wRow]
      (by decide) (by decide)

/-- C4: the Orchestrator attempts every combination (a failure in one never
aborts the rest), counts attempted versus succeeded combinations, and
returns exactly the predictions accumulated from the successful ones, in
loop order. -/
theorem C4_failure_does_not_abort (sm : Smoother) (df : List InputRow) :
    (runExtraction sm df).total_combinations = (comboList df).length
  ∧ (runExtraction sm df).successful
      = (comboList df).countP (fun c => (okRows (extractCombo sm df c)).isSome)
  ∧ (runExtraction sm df).all_predictions
      = (comboList df).filterMap (fun c => okRows (extractCombo sm df c)) := by
  rw [runExtraction_spec]
  exact ⟨rfl, rfl, rfl⟩

/-- C5: a Subset with fewer than 3 observations is skipped before anything
is drawn: no rows, no error branch (`skipped`, not `failed`). -/
theorem C5_short_subset_skipped (sm : Smoother) (subset : List InputRow)
    (cv v pg : String) (h : subset.length < 3) :
    extract_smooth_data sm subset cv v pg = ExtractResult.skipped := by
  rw [extract_smooth_data, if_pos h]

theorem C5_short_subset_skipped_witness :
    extract_smooth_data wSmoother [⟨"g", "v", "c", 1, 1⟩, ⟨"g", "v", "c", 2, 1⟩]
      "c" "v" "g" = ExtractResult.skipped :=
  C5_short_subset_skipped wSmoother
    [⟨"g", "v", "c", 1, 1⟩, ⟨"g", "v", "c", 2, 1⟩] "c" "v" "g" (by decide)

/-- C6: for every x > 0 the Scale Transformer's inverse undoes its forward
transform exactly in the real model (base-10 logarithm followed by
exponentiation of 10), hence in particular within 1e-9 relative
tolerance. -/
theorem C6_roundtrip (x : ℝ) (hx : 0 < x) :
    inverse (forward x) = x
  ∧ |inverse (forward x) - x| ≤ (1 / 10 ^ 9) * |x| := by
  have h : inverse (forward x) = x :=
    Real.rpow_logb (by norm_num) (by norm_num) hx
  refine ⟨h, ?_⟩
  rw [h, sub_self, abs_zero]
  positivity

theorem C6_roundtrip_witness :
    inverse (forward 2) = 2
  ∧ |inverse (forward 2) - 2| ≤ (1 / 10 ^ 9) * |(2 : ℝ)| :=
  C6_roundtrip 2 two_pos

/-- C7: the Result Normalizer is idempotent — applying dedup-then-stable-sort
to its own output returns the output unchanged. -/
theorem C7_normalize_idempotent (rows : List ResultRow) :
    normalize (normalize rows) = normalize rows := by
  rw [normalize, dedupFirst_eq_self (nodup_normalize rows),
    List.mergeSort_of_sorted (sorted_normalize rows)]

/-- C8: the run escalates (writes nothing, exits 1) exactly when zero
combinations produced any output rows; in every other case the merged,
normalized table is exported and the run exits 0. -/
theorem C8_empty_result_escalates (sm : Smoother) (df : List InputRow) :
    ((mainRun sm df).1 = RunOutcome.emptyResult
        ↔ (runExtraction sm df).all_predictions.flatten = [])
  ∧ ((runExtraction sm df).all_predictions.flatten ≠ [] →
        mainRun sm df
          = (RunOutcome.exported
              (normalize (runExtraction sm df).all_predictions.flatten), 0))
  ∧ ((runExtraction sm df).all_predictions.flatten = [] →
        mainRun sm df = (RunOutcome.emptyResult, 1)) := by
  have hiff : ((runExtraction sm df).all_predictions.flatten = []
      ↔ (runExtraction sm df).all_predictions = []) := by
    rw [List.flatten_eq_nil_iff]
    constructor
    · intro h
      by_contra hne
      rcases List.exists_mem_of_ne_nil _ hne with ⟨b, hb⟩
      exact all_predictions_ne_nil hb (h b hb)
    · intro h l hl
      rw [h] at hl
      cases hl
  have hmain : mainRun sm df
      = if (runExtraction sm df).all_predictions.isEmpty
        then (RunOutcome.emptyResult, 1)
        else (RunOutcome.exported
          (normalize (runExtraction sm df).all_predictions.flatten), 0) := rfl
  by_cases hemp : (runExtraction sm df).all_predictions = []
  · have h1 : mainRun sm df = (RunOutcome.emptyResult, 1) := by
      rw [hmain, if_pos (List.isEmpty_iff.mpr hemp)]
    refine ⟨⟨fun _ => hiff.mpr hemp, fun _ => by rw [h1]⟩, ?_, fun _ => h1⟩
    intro hne
    exact absurd (hiff.mpr hemp) hne
  · have h1 : mainRun sm df
        = (RunOutcome.exported
            (normalize (runExtraction sm df).all_predictions.flatten), 0) := by
      rw [hmain, if_neg (by simpa [List.isEmpty_iff] using hemp)]
    refine ⟨⟨fun hq => ?_, fun hq => absurd (hiff.mp hq) hemp⟩,
      fun _ => h1, fun hq => absurd (hiff.mp hq) hemp⟩
    rw [h1] at hq
    simp at hq

theorem C8_empty_result_escalates_witness :
    mainRun wSmoother wInput
      = (RunOutcome.exported
          (normalize (runExtraction wSmoother wInput).all_predictions.flatten), 0)
  ∧ mainRun wSmoother [] = (RunOutcome.emptyResult, 1) := by
  constructor
  · exact (C8_empty_result_escalates wSmoother wInput).2.1 (by decide)
  · exact (C8_empty_result_escalates wSmoother []).2.2 (by decide)

/-- C9: with at least 3 observations, all at positive x, the extraction for
a Subset returns the data of the first drawn line (in figure order) having
at least one vertex inside the y range and ignores all later lines; if no
line qualifies it returns nothing — so each Subset contributes at most one
block of fitted points. -/
theorem C9_first_line_only (sm : Smoother) (subset : List InputRow)
    (cv v pg : String) (h3 : 3 ≤ subset.length)
    (hpos : ∀ p ∈ xy subset, 0 < p.1) :
    extract_smooth_data sm subset cv v pg =
      match (sm (xy subset)).find? (fun l => !(validPoints l).isEmpty) with
      | some line => ExtractResult.ok (lineRows cv v pg line)
      | none => ExtractResult.skipped := by
  rw [extract_eq_firstLineRows h3 hpos, firstLineRows_eq_find]

theorem C9_first_line_only_witness :
    extract_smooth_data (fun _ => [[(0, mkRat 1 2)], [(1, mkRat 3 5)]])
        wInput "c" "v" "g"
      = ExtractResult.ok (lineRows "c" "v" "g" [(0, mkRat 1 2)]) := by
  rw [C9_first_line_only (fun _ => [[(0, mkRat 1 2)], [(1, mkRat 3 5)]])
    wInput "c" "v" "g" (by decide) (by decide)]
  decide

/-- C10: a Subset (with ≥ 3 observations at positive x) all of whose fitted
values fall outside the closed y range contributes no rows: the extraction
returns `skipped`, the same observable outcome as a fit-convergence failure
(a smoother that returns no lines), so the reported succeeded count treats
the two identically. -/
theorem C10_all_out_of_range_skipped (sm : Smoother) (subset : List InputRow)
    (cv v pg : String) (h3 : 3 ≤ subset.length)
    (hpos : ∀ p ∈ xy subset, 0 < p.1)
    (hout : ∀ l ∈ sm (xy subset), ∀ p ∈ l, p.2 < Y_MIN ∨ Y_MAX < p.2) :
    extract_smooth_data sm subset cv v pg = ExtractResult.skipped
  ∧ extract_smooth_data (fun _ => []) subset cv v pg = ExtractResult.skipped := by
  constructor
  · rw [extract_eq_firstLineRows h3 hpos]
    refine firstLineRows_skipped_of_all_invalid ?_
    intro l hl
    rw [validPoints, List.filter_eq_nil_iff]
    intro p hp
    rcases hout l hl p hp with h | h
    · simp only [decide_eq_true_eq, not_and]
      exact fun hge => absurd hge (not_le.mpr h)
    · simp only [decide_eq_true_eq, not_and]
      exact fun _ hle => absurd hle (not_le.mpr h)
  · rw [extract_eq_firstLineRows h3 hpos]
    rfl

theorem C10_all_out_of_range_skipped_witness :
    extract_smooth_data (fun _ => [[(0, mkRat 1 5)]]) wInput "c" "v" "g"
      = ExtractResult.skipped
  ∧ extract_smooth_data (fun _ => []) wInput "c" "v" "g"
      = ExtractResult.skipped :=
  C10_all_out_of_range_skipped (fun _ => [[(0, mkRat 1 5)]]) wInput "c" "v" "g"
    (by decide) (by decide) (by decide)

end PlotnineFits
